import Mathlib

set_option maxHeartbeats 1000000

/-!
A shallow embedding of the CHGNet forward pipeline from
`src/chgnet/model/model.py`, together with proofs about its behaviour.

Conventions of the embedding:
* torch float tensors are idealized as rational numbers (`ℚ`); rows of a
  tensor of shape `[n, 3]` become `Vec3`, `3 × 3` tensors become `Mat3`,
  one-dimensional tensors become Lean lists.
* The learned submodules whose code lives outside `model.py`
  (`chgnet/model/layers.py`, `chgnet/model/basis.py`) are abstract function
  parameters: the claims under study only concern how `model.py` wires them
  together.
* The reverse-mode autodiff engine (torch.autograd) is an external
  capability of the runtime; it is modelled by `DiffScalar`, a scalar value
  carried together with its gradients with respect to the differentiable
  leaves created by the graph batcher (per-structure Cartesian-position
  tensors and per-structure strain tensors).
-/

/-- Rational 3-vector modelling one row of a torch tensor of shape `[n, 3]`. -/
structure Vec3 where
  x : ℚ
  y : ℚ
  z : ℚ
deriving DecidableEq

def Vec3.zero : Vec3 := ⟨0, 0, 0⟩

def Vec3.add (a b : Vec3) : Vec3 := ⟨a.x + b.x, a.y + b.y, a.z + b.z⟩

def Vec3.sub (a b : Vec3) : Vec3 := ⟨a.x - b.x, a.y - b.y, a.z - b.z⟩

def Vec3.neg (a : Vec3) : Vec3 := ⟨-a.x, -a.y, -a.z⟩

def Vec3.smul (q : ℚ) (a : Vec3) : Vec3 := ⟨q * a.x, q * a.y, q * a.z⟩

def Vec3.dot (a b : Vec3) : ℚ := a.x * b.x + a.y * b.y + a.z * b.z

def Vec3.divScalar (a : Vec3) (q : ℚ) : Vec3 := ⟨a.x / q, a.y / q, a.z / q⟩

/-- Rational 3×3 matrix modelling a `[3, 3]` torch tensor (rows `r0 r1 r2`). -/
structure Mat3 where
  r0 : Vec3
  r1 : Vec3
  r2 : Vec3
deriving DecidableEq

def Mat3.zero : Mat3 := ⟨Vec3.zero, Vec3.zero, Vec3.zero⟩

def Mat3.one : Mat3 := ⟨⟨1, 0, 0⟩, ⟨0, 1, 0⟩, ⟨0, 0, 1⟩⟩

def Mat3.add (a b : Mat3) : Mat3 := ⟨a.r0.add b.r0, a.r1.add b.r1, a.r2.add b.r2⟩

def Mat3.smul (q : ℚ) (m : Mat3) : Mat3 := ⟨Vec3.smul q m.r0, Vec3.smul q m.r1, Vec3.smul q m.r2⟩

/-- Row vector times matrix, `v @ M` with the matrix rows as lattice vectors. -/
def Mat3.vecMul (v : Vec3) (m : Mat3) : Vec3 :=
  (Vec3.smul v.x m.r0).add ((Vec3.smul v.y m.r1).add (Vec3.smul v.z m.r2))

def Mat3.mul (a b : Mat3) : Mat3 :=
  ⟨Mat3.vecMul a.r0 b, Mat3.vecMul a.r1 b, Mat3.vecMul a.r2 b⟩

/-- Determinant of a 3×3 matrix (`torch.det`). -/
def Mat3.det (m : Mat3) : ℚ :=
  m.r0.x * (m.r1.y * m.r2.z - m.r1.z * m.r2.y)
    - m.r0.y * (m.r1.x * m.r2.z - m.r1.z * m.r2.x)
    + m.r0.z * (m.r1.x * m.r2.y - m.r1.y * m.r2.x)

/-- Elementwise combination of two lists, keeping the tail of the longer
one unchanged.  Used to add gradient tensors leafwise: a missing entry is a
zero gradient, so keeping the other tail is the mathematically correct sum. -/
def zipPad {α : Type} (f : α → α → α) : List α → List α → List α
  | [], ys => ys
  | x :: xs, [] => x :: xs
  | x :: xs, y :: ys => f x y :: zipPad f xs ys

/-- Embedding of `torch.index_select(t, 0, idx)`: pick rows of `l` at the
given indices.  An out-of-range index is modelled by the default row `d`
(torch itself raises there; the claims only use in-range indices). -/
def indexSelect {α : Type} (l : List α) (idx : List Nat) (d : α) : List α :=
  idx.map fun i => l.getD i d

/-- Embedding of `torch.split(x, ns)`: successive chunks of the given sizes.
When the sizes do not sum to the length torch raises; the embedding is used
only under hypotheses that make the sizes match. -/
def torchSplit {α : Type} : List α → List Nat → List (List α)
  | _, [] => []
  | x, n :: ns => x.take n :: torchSplit (x.drop n) ns

/-- Embedding of `torch.bincount`: occurrence counts of `0 .. max l` in `l`
(empty input gives an empty tensor). -/
def bincount (l : List Nat) : List Nat :=
  if l = [] then [] else (List.range (l.foldr max 0 + 1)).map fun v => l.count v

/-- The per-structure owner labels laid out by the graph batcher: structure
counts `ns` starting at label `i` give `replicate (ns 0) i ++ replicate (ns 1)
(i+1) ++ ...`. -/
def ownerSegs : Nat → List Nat → List Nat
  | _, [] => []
  | i, n :: ns => List.replicate n i ++ ownerSegs (i + 1) ns

/-- Loop body of `CHGNet.split`: the slice `x[start : start + i]` for each
requested size, threading the running `start` offset. -/
def chgnetSplitAux {α : Type} (x : List α) : Nat → List Nat → List (List α)
  | _, [] => []
  | start, i :: ns => (x.drop start).take i :: chgnetSplitAux x (start + i) ns

/-- Embedding of the static `CHGNet.split(x, n)` (the Unbatcher).  After the
loop the running offset equals `n.sum`; the final
`assert start == len(x)` is modelled by returning `none` exactly when that
check would fail. -/
def chgnetSplit {α : Type} (x : List α) (n : List Nat) : Option (List (List α)) :=
  if n.sum = x.length then some (chgnetSplitAux x 0 n) else none

/-- Modelled from the spec: the external reverse-mode autodiff engine
(torch.autograd), which `model.py` only calls, is represented by carrying a
scalar value together with its gradients with respect to the differentiable
leaves built by the graph batcher: `gradPos k` is the gradient with respect
to structure `k`'s Cartesian atom-position tensor, `gradStrain k` the
gradient with respect to structure `k`'s strain tensor. -/
structure DiffScalar where
  val : ℚ
  gradPos : Nat → List Vec3
  gradStrain : Nat → Mat3

def DiffScalar.zero : DiffScalar := ⟨0, fun _ => [], fun _ => Mat3.zero⟩

/-- Modelled from the spec: engine addition — values add and the gradient of
a sum is the leafwise sum of the gradients. -/
def DiffScalar.add (a b : DiffScalar) : DiffScalar :=
  ⟨a.val + b.val,
   fun k => zipPad Vec3.add (a.gradPos k) (b.gradPos k),
   fun k => Mat3.add (a.gradStrain k) (b.gradStrain k)⟩

/-- Embedding of `energy.sum()` over a batch of per-structure energies. -/
def sumDS (l : List DiffScalar) : DiffScalar := l.foldr DiffScalar.add DiffScalar.zero

/-- Modelled from the spec: engine multiplication by a constant (the
per-structure atom count), which scales value and gradients linearly. -/
def DiffScalar.smulNat (n : Nat) (a : DiffScalar) : DiffScalar :=
  ⟨a.val * n,
   fun k => (a.gradPos k).map (Vec3.smul n),
   fun k => Mat3.smul n (a.gradStrain k)⟩

/-- Per-structure crystal graph as consumed by the batcher (the external
graph converter produces it; `model.py` only reads these fields). -/
structure CrystalGraph where
  atomic_number : List Int
  atom_frac_coord : List Vec3
  lattice : Mat3
  atom_graph : List (Nat × Nat)
  undirected2directed : List Nat
  directed2undirected : List Nat
  neighbor_image : List Vec3
  bond_graph : List (Nat × Nat × Nat × Nat × Nat)
deriving DecidableEq

def CrystalGraph.empty : CrystalGraph := ⟨[], [], Mat3.zero, [], [], [], [], []⟩

/-- Number of atoms of a structure, `graph.atomic_number.shape[0]`. -/
def natoms (g : CrystalGraph) : Nat := g.atomic_number.length

/-- Number of undirected bonds of a structure (one bond basis row is
produced per entry of `undirected2directed`). -/
def nund (g : CrystalGraph) : Nat := g.undirected2directed.length

/-- The batched graph assembled by `BatchedGraph.from_graphs`.  `R` is the
row type of the radial bond bases, `AB` the row type of the angle bases. -/
structure BatchedGraph (R AB : Type) where
  atomic_numbers : List Int
  bond_bases_ag : List R
  bond_bases_bg : List R
  angle_bases : List AB
  batched_atom_graph : List (Nat × Nat)
  batched_bond_graph : List (Nat × Nat × Nat)
  atom_owners : List Nat
  directed2undirected : List Nat
  atom_positions : List (List Vec3)
  strains : List (Option Mat3)
  volumes : List ℚ

/-- The (possibly strained) lattice used for one structure:
`lattice @ (eye(3) + strain)` with the zero-initialized strain variable when
stress is requested, the raw lattice otherwise. -/
def latticeOf (compute_stress : Bool) (g : CrystalGraph) : Mat3 :=
  if compute_stress then Mat3.mul g.lattice (Mat3.add Mat3.one Mat3.zero) else g.lattice

/-- Cartesian coordinates `atom_frac_coord @ lattice`, recomputed from the
(possibly strained) lattice so they stay differentiable leaves. -/
def cartCoords (compute_stress : Bool) (g : CrystalGraph) : List Vec3 :=
  g.atom_frac_coord.map fun fc => Mat3.vecMul fc (latticeOf compute_stress g)

/-- Embedding of `BondEncoder.forward`.  The two radial-basis expansions
`rbf_ag`, `rbf_bg` live in `chgnet/model/basis.py` (outside `src/`) and are
abstract per-scalar maps; `normF` abstracts `torch.norm` on one row.  The
structure of the method — periodic-image shift, bond vectors, normalization,
de-duplication through `undirected2directed` — follows the source. -/
def bondEncoderForward {R : Type} (rbf_ag rbf_bg : ℚ → R) (normF : Vec3 → ℚ)
    (center neighbor : List Vec3) (undirected2directed : List Nat)
    (image : List Vec3) (lattice : Mat3) : List R × List R × List Vec3 :=
  let neighbor2 := List.zipWith (fun nb im => Vec3.add nb (Mat3.vecMul im lattice)) neighbor image
  let bond_vectors := List.zipWith Vec3.sub center neighbor2
  let bond_lengths := bond_vectors.map normF
  let bond_vectors2 := List.zipWith Vec3.divScalar bond_vectors bond_lengths
  let undirected_bond_lengths := indexSelect bond_lengths undirected2directed 0
  (undirected_bond_lengths.map rbf_ag, undirected_bond_lengths.map rbf_bg, bond_vectors2)

/-- The epsilon of `AngleEncoder.forward`: the cosine is multiplied by
`1 - 1e-6` before `torch.acos` for stability. -/
def acosEps : ℚ := 1 / 1000000

/-- The inverse-cosine argument computed by `AngleEncoder.forward` from two
bond vectors: their dot product scaled slightly inward. -/
def angleEncoderCos (bond_i bond_j : Vec3) : ℚ :=
  Vec3.dot bond_i bond_j * (1 - acosEps)

/-- Configuration state built by `AngleEncoder.__init__`. -/
structure AngleEncoderCfg where
  circular_harmonics_order : Int
deriving DecidableEq

/-- Embedding of `AngleEncoder.__init__`: the assert
`(num_angular - 1) % 2 == 0` is a hard precondition (Python `%` on ints,
hence `Int.emod`); on success the Fourier order is `(num_angular - 1) / 2`. -/
def angleEncoderInit (num_angular : Int) : Option AngleEncoderCfg :=
  if (num_angular - 1) % 2 = 0 then some ⟨(num_angular - 1) / 2⟩ else none

/-- Readout configuration chosen by the `CHGNet.__init__` pooling-selection
block: the `read_out_type` string stored on the model and the `average` flag
of the pooling layer it builds. -/
structure ReadoutSetup where
  read_out_type : String
  average : Bool
deriving DecidableEq

/-- Embedding of the pooling-selection block of `CHGNet.__init__`
(lines 202–218): `mlp_first` forces sum pooling; otherwise `attn` or
`weighted` select attention pooling and every other string falls through to
average pooling.  The block has no failure path. -/
def chgnetReadoutInit (mlp_first : Bool) (read_out : String) : ReadoutSetup :=
  if mlp_first then ⟨"sum", false⟩
  else if read_out = "attn" ∨ read_out = "weighted" then ⟨"attn", true⟩
  else ⟨"ave", true⟩

/-- Embedding of `BatchedGraph.from_graphs`, written as an explicit
recursion over the input list threading the running structure index, atom
offset and undirected-bond offset (`graph_idx`, `atom_offset_idx`,
`n_undirected` in the source).  `bexp` and `aexp` are the two basis
expansion modules the source receives as arguments. -/
def fromGraphsAux {R AB : Type}
    (bexp : List Vec3 → List Vec3 → List Nat → List Vec3 → Mat3 → List R × List R × List Vec3)
    (aexp : List Vec3 → List Vec3 → List AB)
    (compute_stress : Bool) :
    Nat → Nat → Nat → List CrystalGraph → BatchedGraph R AB
  | _, _, _, [] => ⟨[], [], [], [], [], [], [], [], [], [], []⟩
  | graph_idx, atom_offset_idx, n_undirected, g :: gs =>
    let n_atom := g.atomic_number.length
    let strain : Option Mat3 := if compute_stress then some Mat3.zero else none
    let lattice := latticeOf compute_stress g
    let cart := cartCoords compute_stress g
    let be := bexp (indexSelect cart (g.atom_graph.map Prod.fst) Vec3.zero)
                   (indexSelect cart (g.atom_graph.map fun e => e.2) Vec3.zero)
                   g.undirected2directed g.neighbor_image lattice
    let rest := fromGraphsAux bexp aexp compute_stress (graph_idx + 1)
      (atom_offset_idx + n_atom) (n_undirected + be.1.length) gs
    { atomic_numbers := g.atomic_number ++ rest.atomic_numbers
      bond_bases_ag := be.1 ++ rest.bond_bases_ag
      bond_bases_bg := be.2.1 ++ rest.bond_bases_bg
      angle_bases :=
        (if g.bond_graph.isEmpty then [] else
          aexp (indexSelect be.2.2 (g.bond_graph.map fun r => r.2.2.1) Vec3.zero)
               (indexSelect be.2.2 (g.bond_graph.map fun r => r.2.2.2.2) Vec3.zero))
        ++ rest.angle_bases
      batched_atom_graph :=
        (g.atom_graph.map fun e => (e.1 + atom_offset_idx, e.2 + atom_offset_idx))
        ++ rest.batched_atom_graph
      batched_bond_graph :=
        (if g.bond_graph.isEmpty then [] else
          g.bond_graph.map fun r =>
            (r.1 + atom_offset_idx, r.2.1 + n_undirected, r.2.2.2.1 + n_undirected))
        ++ rest.batched_bond_graph
      atom_owners := List.replicate n_atom graph_idx ++ rest.atom_owners
      directed2undirected := g.directed2undirected.map (· + n_undirected) ++ rest.directed2undirected
      atom_positions := cart :: rest.atom_positions
      strains := strain :: rest.strains
      volumes := Mat3.det lattice :: rest.volumes }

/-- Embedding of `BatchedGraph.from_graphs`: fold over the graphs starting
with all running offsets at zero. -/
def fromGraphs {R AB : Type}
    (bexp : List Vec3 → List Vec3 → List Nat → List Vec3 → Mat3 → List R × List R × List Vec3)
    (aexp : List Vec3 → List Vec3 → List AB)
    (compute_stress : Bool) (graphs : List CrystalGraph) : BatchedGraph R AB :=
  fromGraphsAux bexp aexp compute_stress 0 0 0 graphs

/-- Embedding of one `nn.Embedding` row lookup: defined exactly when the
(already decremented) index is in `[0, table.length)`; torch raises
otherwise. -/
def embLookup {F : Type} (table : List F) (i : Int) : Option F :=
  if h : 0 ≤ i ∧ i.toNat < table.length then some (table.get ⟨i.toNat, h.2⟩) else none

/-- Embedding of `self.atom_embedding(g.atomic_numbers - 1)`: look every
species code up at index `z - 1`; any failing lookup aborts the call. -/
def computeAtomFeas {F : Type} (table : List F) : List Int → Option (List F)
  | [] => some []
  | z :: zs =>
    match embLookup table (z - 1), computeAtomFeas table zs with
    | some f, some fs => some (f :: fs)
    | _, _ => none

/-- The chunk of `CHGNet` state that `CHGNet._compute` reads.  The learned
submodules (embeddings, convolution layers, site-wise projection, pooling,
readout MLP) live in files outside `src/` and are abstract functions; the
`Option` layers mirror the source storing `None` placeholders when bond or
angle updates are disabled.  Type parameters: `R`/`AB` basis row types,
`F` atom features, `BF` bond features, `AF` angle features, `W` bond-weight
rows, `CF` crystal features. -/
structure NetParts (R AB F BF AF W CF : Type) where
  atomEmbTable : List F
  bond_embedding : R → BF
  bond_weights_ag : R → W
  bond_weights_bg : R → W
  angle_embedding : AB → AF
  atomLayer : Nat → List F → List BF → List W → List (Nat × Nat) → List Nat → List F
  bondLayer : Nat → Option (List F → List BF → List W → List AF → List (Nat × Nat × Nat) → List BF)
  angleLayer : Nat → Option (List F → List BF → List AF → List (Nat × Nat × Nat) → List AF)
  site_wise_proj : F → ℚ
  readout_norm : Option (List F → List F)
  mlp_first : Bool
  mlpAtom : F → DiffScalar
  poolingCF : List F → List Nat → List CF
  mlpCF : CF → DiffScalar
  n_conv : Nat
  is_intensive : Bool

/-- State threaded through the message-passing loop of `CHGNet._compute`:
the three feature families plus the two side outputs captured at the
second-to-last interior stage. -/
structure LoopState (F BF AF : Type) where
  atom_feas : List F
  bond_feas : List BF
  angle_feas : List AF
  mOut : Option (List (List ℚ))
  afOut : Option (List (List F))

/-- One iteration of the message-passing loop of `CHGNet._compute`
(`for idx, (atom_layer, bond_layer, angle_layer) in …`): atom update,
guarded bond update, guarded angle update, then at `idx == n_conv - 2` the
optional capture of per-structure atom features and of the site-wise
magnetic moments `abs(site_wise(atom_feas))` split per structure. -/
def convStep {R AB F BF AF W CF : Type} (net : NetParts R AB F BF AF W CF)
    (g : BatchedGraph R AB) (apg : List Nat) (bwag bwbg : List W)
    (site_wise return_atom_feas : Bool)
    (st : LoopState F BF AF) (idx : Nat) : LoopState F BF AF :=
  let atom_feas := net.atomLayer idx st.atom_feas st.bond_feas bwag
    g.batched_atom_graph g.directed2undirected
  let ba :=
    if g.angle_bases.isEmpty then (st.bond_feas, st.angle_feas)
    else
      match net.bondLayer idx with
      | none => (st.bond_feas, st.angle_feas)
      | some bl =>
        let bf := bl atom_feas st.bond_feas bwbg st.angle_feas g.batched_bond_graph
        match net.angleLayer idx with
        | none => (bf, st.angle_feas)
        | some al => (bf, al atom_feas bf st.angle_feas g.batched_bond_graph)
  let afOut :=
    if idx = net.n_conv - 2 ∧ return_atom_feas then some (torchSplit atom_feas apg)
    else st.afOut
  let mOut :=
    if idx = net.n_conv - 2 ∧ site_wise then
      some (torchSplit (atom_feas.map fun fea => |net.site_wise_proj fea|) apg)
    else st.mOut
  ⟨atom_feas, ba.1, ba.2, mOut, afOut⟩

/-- Bond-weight vectors for the atom graph, `self.bond_weights_ag(bond_bases_ag)`. -/
def bondWeightsAg {R AB F BF AF W CF : Type} (net : NetParts R AB F BF AF W CF)
    (g : BatchedGraph R AB) : List W :=
  g.bond_bases_ag.map net.bond_weights_ag

/-- Bond-weight vectors for the bond graph, `self.bond_weights_bg(bond_bases_bg)`. -/
def bondWeightsBg {R AB F BF AF W CF : Type} (net : NetParts R AB F BF AF W CF)
    (g : BatchedGraph R AB) : List W :=
  g.bond_bases_bg.map net.bond_weights_bg

/-- Initial loop state: embedded atom features, embedded bond features,
embedded angle features (the source only assigns `angle_feas` when the batch
has angles; every later read is guarded by the same emptiness test, so an
empty list is a faithful stand-in), no side outputs yet. -/
def loopInitState {R AB F BF AF W CF : Type} (net : NetParts R AB F BF AF W CF)
    (g : BatchedGraph R AB) (feas0 : List F) : LoopState F BF AF :=
  ⟨feas0, g.bond_bases_ag.map net.bond_embedding, g.angle_bases.map net.angle_embedding,
   none, none⟩

/-- The message-passing loop of `CHGNet._compute`: the interior stages are
the first `n_conv - 1` convolution layers. -/
def loopOutState {R AB F BF AF W CF : Type} (net : NetParts R AB F BF AF W CF)
    (g : BatchedGraph R AB) (site_wise return_atom_feas : Bool)
    (feas0 : List F) : LoopState F BF AF :=
  (List.range (net.n_conv - 1)).foldl
    (convStep net g (bincount g.atom_owners) (bondWeightsAg net g) (bondWeightsBg net g)
      site_wise return_atom_feas)
    (loopInitState net g feas0)

/-- Atom features entering the readout: the final (plain) atom convolution
layer `self.atom_conv_layers[-1]` followed by the optional readout
normalization. -/
def readoutFeas {R AB F BF AF W CF : Type} (net : NetParts R AB F BF AF W CF)
    (g : BatchedGraph R AB) (site_wise return_atom_feas : Bool)
    (feas0 : List F) : List F :=
  let st := loopOutState net g site_wise return_atom_feas feas0
  let a1 := net.atomLayer (net.n_conv - 1) st.atom_feas st.bond_feas (bondWeightsAg net g)
    g.batched_atom_graph g.directed2undirected
  match net.readout_norm with
  | some nf => nf a1
  | none => a1

/-- Modelled from the spec: `GraphPooling(average=False)`
(`chgnet/model/layers.py`, outside `src/`) sum-pools per-atom values per
owning structure, one output row per structure of the batch. -/
def sumPool (vals : List DiffScalar) (owners : List Nat) : List DiffScalar :=
  (List.range (bincount owners).length).map fun k =>
    sumDS ((owners.zip vals).filterMap fun ov => if ov.1 = k then some ov.2 else none)

/-- The per-structure energies produced by the readout head of
`CHGNet._compute`, before any derivative extraction and before the intensive
normalization: either project-then-sum-pool (`mlp_first`) or
pool-then-project scaled by the per-structure atom count. -/
def energiesPre {R AB F BF AF W CF : Type} (net : NetParts R AB F BF AF W CF)
    (g : BatchedGraph R AB) (site_wise return_atom_feas : Bool)
    (feas0 : List F) : List DiffScalar :=
  let feas := readoutFeas net g site_wise return_atom_feas feas0
  if net.mlp_first then sumPool (feas.map net.mlpAtom) g.atom_owners
  else
    List.zipWith (fun d n => DiffScalar.smulNat n d)
      ((net.poolingCF feas g.atom_owners).map net.mlpCF)
      (bincount g.atom_owners)

/-- The fixed stress conversion constant of `CHGNet._compute`,
`160.21766208` (eV/Å³ to GPa), as an exact rational. -/
def stressUnitConv : ℚ := 16021766208 / 100000000

/-- The prediction dictionary assembled by `CHGNet._compute`. -/
structure Prediction (F CF : Type) where
  atoms_per_graph : List Nat
  e : List ℚ
  f : Option (List (List Vec3))
  s : Option (List Mat3)
  m : Option (List (List ℚ))
  atom_fea : Option (List (List F))
  crystal_fea : Option (List CF)

/-- The body of `CHGNet._compute` after the atom-embedding lookup
succeeded: message passing, readout, force as the negated position gradient
of the batch-summed energy, stress as the strain gradient scaled by
`1 / volume * 160.21766208`, and — as the very last step — the division of
the energy by the per-structure atom count when the model is intensive. -/
def chgnetComputeFeas {R AB F BF AF W CF : Type} (net : NetParts R AB F BF AF W CF)
    (g : BatchedGraph R AB)
    (site_wise compute_force compute_stress return_atom_feas return_crystal_feas : Bool)
    (feas0 : List F) : Prediction F CF :=
  let apg := bincount g.atom_owners
  let st := loopOutState net g site_wise return_atom_feas feas0
  let feas := readoutFeas net g site_wise return_atom_feas feas0
  let energies := energiesPre net g site_wise return_atom_feas feas0
  let totalE := sumDS energies
  let f :=
    if compute_force then
      some ((List.range g.atom_positions.length).map fun k => (totalE.gradPos k).map Vec3.neg)
    else none
  let s :=
    if compute_stress then
      some (List.zipWith (fun m sc => Mat3.smul sc m)
        ((List.range g.strains.length).map fun k => totalE.gradStrain k)
        (g.volumes.map fun v => 1 / v * stressUnitConv))
    else none
  let eList := energies.map DiffScalar.val
  let e := if net.is_intensive then List.zipWith (fun q n => q / (n : ℚ)) eList apg else eList
  let crystal :=
    if net.mlp_first then none
    else if return_crystal_feas then some (net.poolingCF feas g.atom_owners) else none
  ⟨apg, e, f, s, st.mOut, st.afOut, crystal⟩

/-- Embedding of `CHGNet._compute`: the atom-embedding lookup may abort the
whole call (species code out of the table); everything else is
`chgnetComputeFeas`. -/
def chgnetCompute {R AB F BF AF W CF : Type} (net : NetParts R AB F BF AF W CF)
    (g : BatchedGraph R AB)
    (site_wise compute_force compute_stress return_atom_feas return_crystal_feas : Bool) :
    Option (Prediction F CF) :=
  (computeAtomFeas net.atomEmbTable g.atomic_numbers).map
    (chgnetComputeFeas net g site_wise compute_force compute_stress
      return_atom_feas return_crystal_feas)

/-- Task parsing of `CHGNet.forward`: `compute_force = "f" in task`
(single-character membership in the task string). -/
def taskForce (task : String) : Bool := task.data.contains 'f'

/-- Task parsing of `CHGNet.forward`: `compute_stress = "s" in task`. -/
def taskStress (task : String) : Bool := task.data.contains 's'

/-- Task parsing of `CHGNet.forward`: `site_wise = "m" in task`. -/
def taskMag (task : String) : Bool := task.data.contains 'm'

/-- Offset applied to structure `k`'s atom indices by the batcher: the total
atom count of structures `0 .. k-1`.  (Second definition following the
spec's words, to be compared with the batcher's running offset.) -/
def atomOffset (gs : List CrystalGraph) (k : Nat) : Nat := ((gs.take k).map natoms).sum

/-- Offset applied to structure `k`'s bond indices by the batcher: the total
undirected-bond count of structures `0 .. k-1`.  (Second definition
following the spec's words.) -/
def bondOffset (gs : List CrystalGraph) (k : Nat) : Nat := ((gs.take k).map nund).sum

/-- Spec-side per-structure segments of the batched atom graph: structure
after structure, both endpoints of every directed bond shifted by the
running atom offset starting at `a`. -/
def atomGraphSegs : Nat → List CrystalGraph → List (List (Nat × Nat))
  | _, [] => []
  | a, g :: gs => (g.atom_graph.map fun e => (e.1 + a, e.2 + a)) :: atomGraphSegs (a + natoms g) gs

/-- Spec-side per-structure segments of the batched `directed2undirected`
map: every entry shifted by the running undirected-bond offset starting at `u`. -/
def d2uSegs : Nat → List CrystalGraph → List (List Nat)
  | _, [] => []
  | u, g :: gs => g.directed2undirected.map (· + u) :: d2uSegs (u + nund g) gs

/-- Spec-side per-structure segments of the batched bond graph: the central
atom shifted by the atom offset, the two undirected-bond columns shifted by
the undirected-bond offset. -/
def bondGraphSegs : Nat → Nat → List CrystalGraph → List (List (Nat × Nat × Nat))
  | _, _, [] => []
  | a, u, g :: gs =>
    g.bond_graph.map (fun r => (r.1 + a, r.2.1 + u, r.2.2.2.1 + u))
      :: bondGraphSegs (a + natoms g) (u + nund g) gs

/-- Joining the slices produced by the split loop starting at `start`
recovers the dropped suffix, provided the sizes account exactly for it. -/
theorem chgnetSplitAux_join {α : Type} (x : List α) :
    ∀ (ns : List Nat) (start : Nat), start + ns.sum = x.length →
      (chgnetSplitAux x start ns).flatten = x.drop start := by
  intro ns
  induction ns with
  | nil =>
    intro start h
    have hs : start = x.length := by simpa using h
    subst hs
    simp [chgnetSplitAux]
  | cons n ns ih =>
    intro start h
    rw [chgnetSplitAux]
    rw [List.flatten_cons]
    rw [ih (start + n) (by simp at h ⊢; omega)]
    have hd : List.drop (start + n) x = List.drop n (List.drop start x) := by
      rw [List.drop_drop, Nat.add_comm]
    rw [hd]
    exact List.take_append_drop n (x.drop start)

/-- C4: the Unbatcher `CHGNet.split` fails (its final assert fires) exactly
when the requested sizes do not sum to the batched tensor's length — it
never silently truncates — and on success concatenating the returned
per-structure slices in order reproduces the input exactly. -/
theorem split_sum_check_and_reconstruction {α : Type} (x : List α) (n : List Nat) :
    (chgnetSplit x n = none ↔ n.sum ≠ x.length) ∧
    (∀ r, chgnetSplit x n = some r → r.flatten = x) := by
  constructor
  · constructor
    · intro h hn
      rw [chgnetSplit, if_pos hn] at h
      cases h
    · intro h
      rw [chgnetSplit, if_neg h]
  · intro r hr
    by_cases h : n.sum = x.length
    · rw [chgnetSplit, if_pos h] at hr
      cases hr
      simpa using chgnetSplitAux_join x n 0 (by simpa using h)
    · rw [chgnetSplit, if_neg h] at hr
      cases hr

/-- Witness for C4 at a concrete batched tensor and size list. -/
theorem split_sum_check_and_reconstruction_app :
    chgnetSplit [10, 20, 30] [1, 2] = some [[10], [20, 30]] ∧
      ([[10], [20, 30]] : List (List Nat)).flatten = [10, 20, 30] :=
  ⟨by decide,
   (split_sum_check_and_reconstruction [10, 20, 30] [1, 2]).2 [[10], [20, 30]] (by decide)⟩

/-- C6: `AngleEncoder.__init__` fails its assert for every even requested
width and succeeds for every odd width `2k + 1`, storing the Fourier order `k`. -/
theorem angle_encoder_odd_width :
    (∀ n : Int, n % 2 = 0 → angleEncoderInit n = none) ∧
    (∀ k : Nat, angleEncoderInit (2 * (k : Int) + 1) = some ⟨(k : Int)⟩) := by
  constructor
  · intro n hn
    have h : ¬((n - 1) % 2 = 0) := by omega
    rw [angleEncoderInit, if_neg h]
  · intro k
    have h : ((2 * (k : Int) + 1) - 1) % 2 = 0 := by omega
    rw [angleEncoderInit, if_pos h]
    have hv : (2 * (k : Int) + 1 - 1) / 2 = (k : Int) := by omega
    rw [hv]

/-- Witness for C6: width 4 (even) is rejected, width 9 = 2·4+1 accepted. -/
theorem angle_encoder_odd_width_app :
    angleEncoderInit 4 = none ∧
      angleEncoderInit (2 * ((4 : Nat) : Int) + 1) = some ⟨((4 : Nat) : Int)⟩ :=
  ⟨angle_encoder_odd_width.1 4 (by decide), angle_encoder_odd_width.2 4⟩

/-- C7: for any two bond vectors whose dot product lies in `[-1, 1]` (as
normalized vectors have), the inverse-cosine argument computed by
`AngleEncoder.forward` — the dot product scaled by `1 - 1e-6` — lies
strictly inside `(-1, 1)`, so the angle `arccos` it feeds into is a finite
real strictly between `0` and `π` and the Fourier basis of that angle is
finite (no domain error at exactly parallel or antiparallel bonds). -/
theorem angle_cosine_clamp_in_open_interval (bond_i bond_j : Vec3)
    (h : -1 ≤ Vec3.dot bond_i bond_j ∧ Vec3.dot bond_i bond_j ≤ 1) :
    |angleEncoderCos bond_i bond_j| < 1 ∧
    0 < Real.arccos ((angleEncoderCos bond_i bond_j : ℚ) : ℝ) ∧
    Real.arccos ((angleEncoderCos bond_i bond_j : ℚ) : ℝ) < Real.pi := by
  have habs : |Vec3.dot bond_i bond_j| ≤ 1 := abs_le.mpr h
  have hq : |angleEncoderCos bond_i bond_j| < 1 := by
    rw [angleEncoderCos, abs_mul]
    calc |Vec3.dot bond_i bond_j| * |1 - acosEps|
        ≤ 1 * |1 - acosEps| := mul_le_mul_of_nonneg_right habs (abs_nonneg _)
      _ < 1 := by rw [one_mul, abs_of_pos (by norm_num [acosEps])]; norm_num [acosEps]
  refine ⟨hq, ?_, ?_⟩
  · rw [Real.arccos_pos]
    exact_mod_cast (abs_lt.mp hq).2
  · refine lt_of_le_of_ne (Real.arccos_le_pi _) ?_
    rw [Ne, Real.arccos_eq_pi]
    refine not_le.mpr ?_
    exact_mod_cast (abs_lt.mp hq).1

/-- Witness for C7 at exactly parallel unit bond vectors (dot product 1). -/
theorem angle_cosine_clamp_in_open_interval_app :
    (-1 ≤ Vec3.dot ⟨1, 0, 0⟩ ⟨1, 0, 0⟩ ∧ Vec3.dot ⟨1, 0, 0⟩ ⟨1, 0, 0⟩ ≤ 1) ∧
      (|angleEncoderCos ⟨1, 0, 0⟩ ⟨1, 0, 0⟩| < 1 ∧
       0 < Real.arccos ((angleEncoderCos ⟨1, 0, 0⟩ ⟨1, 0, 0⟩ : ℚ) : ℝ) ∧
       Real.arccos ((angleEncoderCos ⟨1, 0, 0⟩ ⟨1, 0, 0⟩ : ℚ) : ℝ) < Real.pi) :=
  ⟨⟨by simp [Vec3.dot], by simp [Vec3.dot]⟩,
   angle_cosine_clamp_in_open_interval _ _ ⟨by simp [Vec3.dot], by simp [Vec3.dot]⟩⟩

/-- C8 counterexample: an unrecognized `read_out` selector does not make
construction fail — the selection block of `CHGNet.__init__` silently falls
through to average pooling (`read_out_type = "ave"`, averaging enabled). -/
theorem readout_unknown_selector_silently_ave :
    chgnetReadoutInit false "invalid" = ⟨"ave", true⟩ := by decide

/-- C8 amended: the pooling-selection block never fails; with `mlp_first`
unset, every selector other than `attn`/`weighted` — recognized or not — is
treated as average pooling, and with `mlp_first` set the selector is
ignored and sum pooling is used. -/
theorem readout_selector_fallback (read_out : String)
    (h : read_out ≠ "attn" ∧ read_out ≠ "weighted") :
    chgnetReadoutInit false read_out = ⟨"ave", true⟩ ∧
    ∀ s : String, chgnetReadoutInit true s = ⟨"sum", false⟩ := by
  constructor
  · rw [chgnetReadoutInit, if_neg (Bool.false_ne_true), if_neg]
    rintro (h1 | h2)
    · exact h.1 h1
    · exact h.2 h2
  · intro s
    rw [chgnetReadoutInit, if_pos rfl]

/-- Witness for C8's amended statement at the concrete selector `foo`. -/
theorem readout_selector_fallback_app :
    ("foo" ≠ "attn" ∧ "foo" ≠ "weighted") ∧
      (chgnetReadoutInit false "foo" = ⟨"ave", true⟩ ∧
       ∀ s : String, chgnetReadoutInit true s = ⟨"sum", false⟩) :=
  ⟨by decide, readout_selector_fallback "foo" (by decide)⟩

/-- The decremented-index embedding lookup of `CHGNet._compute` succeeds
exactly for species codes in `[1, table.length]`; specialized to the
94-row table of `AtomEmbedding`. -/
theorem embLookup_shift_isSome {F : Type} (table : List F) (z : Int)
    (hlen : table.length = 94) :
    (embLookup table (z - 1)).isSome ↔ 1 ≤ z ∧ z ≤ 94 := by
  rw [embLookup]
  by_cases h : 0 ≤ z - 1 ∧ (z - 1).toNat < table.length
  · rw [dif_pos h]
    simp only [Option.isSome_some, true_iff]
    rw [hlen] at h
    omega
  · rw [dif_neg h]
    simp only [Option.isSome_none, Bool.false_eq_true, false_iff]
    intro hz
    exact h (by rw [hlen]; omega)

/-- The batched atom-embedding step succeeds exactly when every species
code lies in `[1, 94]`. -/
theorem computeAtomFeas_isSome_iff {F : Type} (table : List F)
    (hlen : table.length = 94) :
    ∀ zs : List Int, (computeAtomFeas table zs).isSome ↔ ∀ z ∈ zs, 1 ≤ z ∧ z ≤ 94 := by
  intro zs
  induction zs with
  | nil => simp [computeAtomFeas]
  | cons z zs ih =>
    rw [computeAtomFeas]
    have h1 := embLookup_shift_isSome table z hlen
    rcases hl : embLookup table (z - 1) with _ | f <;>
      rcases hr : computeAtomFeas table zs with _ | fs <;>
      rw [hl] at h1 <;> rw [hr] at ih <;>
      simp only [Option.isSome_some, Option.isSome_none, Bool.false_eq_true,
        false_iff, true_iff] at h1 ih ⊢
    · intro hall
      exact h1 (hall z (List.mem_cons_self z zs))
    · intro hall
      exact h1 (hall z (List.mem_cons_self z zs))
    · intro hall
      exact ih fun w hw => hall w (List.mem_cons_of_mem z hw)
    · intro w hw
      rcases List.mem_cons.mp hw with rfl | hw2
      · exact h1
      · exact ih w hw2

/-- C10: a forward evaluation is defined exactly when every input atomic
number lies in `[1, 94]`: `CHGNet._compute` looks the embedding up at index
`atomic_number - 1` in the 94-row `AtomEmbedding` table, so a species code
of 0 or above 94 makes the lookup (and hence the whole prediction) fail. -/
theorem atomic_number_range_precondition {R AB F BF AF W CF : Type}
    (net : NetParts R AB F BF AF W CF) (g : BatchedGraph R AB)
    (sw cf cs raf rcf : Bool) (hlen : net.atomEmbTable.length = 94) :
    (chgnetCompute net g sw cf cs raf rcf).isSome ↔
      ∀ z ∈ g.atomic_numbers, 1 ≤ z ∧ z ≤ 94 := by
  have key := computeAtomFeas_isSome_iff net.atomEmbTable hlen g.atomic_numbers
  rw [chgnetCompute]
  cases hx : computeAtomFeas net.atomEmbTable g.atomic_numbers with
  | none => rw [hx] at key; simpa using key
  | some v => rw [hx] at key; simpa using key

/-- A fully concrete network instantiation (all abstract feature types are
`Unit`) used to evaluate the embedding on closed inputs. -/
def unitNet (nc : Nat) (intensive : Bool) : NetParts Unit Unit Unit Unit Unit Unit Unit where
  atomEmbTable := List.replicate 94 ()
  bond_embedding := fun _ => ()
  bond_weights_ag := fun _ => ()
  bond_weights_bg := fun _ => ()
  angle_embedding := fun _ => ()
  atomLayer := fun _ af _ _ _ _ => af
  bondLayer := fun _ => none
  angleLayer := fun _ => none
  site_wise_proj := fun _ => 0
  readout_norm := none
  mlp_first := false
  mlpAtom := fun _ => DiffScalar.zero
  poolingCF := fun _ owners => (List.range (bincount owners).length).map fun _ => ()
  mlpCF := fun _ => DiffScalar.zero
  n_conv := nc
  is_intensive := intensive

/-- A concrete two-atom batched graph used to evaluate the embedding. -/
def gUnit : BatchedGraph Unit Unit :=
  ⟨[1, 94], [], [], [], [], [], [0, 0], [], [], [], []⟩

/-- Witness for C10 with the 94-row table and species codes 1 and 94. -/
theorem atomic_number_range_precondition_app :
    (unitNet 4 true).atomEmbTable.length = 94 ∧
      ((chgnetCompute (unitNet 4 true) gUnit false false false false false).isSome ↔
        ∀ z ∈ gUnit.atomic_numbers, 1 ≤ z ∧ z ≤ 94) :=
  ⟨by decide, atomic_number_range_precondition _ _ _ _ _ _ _ (by decide)⟩

/-- The batched atom graph laid out by the batcher is, segment by segment,
each structure's atom graph shifted by the running atom offset. -/
theorem fromGraphsAux_atom_graph {R AB : Type}
    (bexp : List Vec3 → List Vec3 → List Nat → List Vec3 → Mat3 → List R × List R × List Vec3)
    (aexp : List Vec3 → List Vec3 → List AB) (cs : Bool) :
    ∀ (gs : List CrystalGraph) (i a u : Nat),
      (fromGraphsAux bexp aexp cs i a u gs).batched_atom_graph
        = (atomGraphSegs a gs).flatten := by
  intro gs
  induction gs with
  | nil => intro i a u; rfl
  | cons g gs ih =>
    intro i a u
    simp only [fromGraphsAux, atomGraphSegs, List.flatten_cons, natoms]
    rw [ih]

/-- The batched `directed2undirected` map is, segment by segment, each
structure's map shifted by the running undirected-bond offset; the running
offset advances by `len(bond_basis_ag)`, which for `BondEncoder.forward`
(abstracted by the length hypothesis `hb`) is the structure's
undirected-bond count. -/
theorem fromGraphsAux_d2u {R AB : Type}
    (bexp : List Vec3 → List Vec3 → List Nat → List Vec3 → Mat3 → List R × List R × List Vec3)
    (aexp : List Vec3 → List Vec3 → List AB) (cs : Bool)
    (hb : ∀ c n u2 im lat, ((bexp c n u2 im lat).1).length = u2.length) :
    ∀ (gs : List CrystalGraph) (i a u : Nat),
      (fromGraphsAux bexp aexp cs i a u gs).directed2undirected
        = (d2uSegs u gs).flatten := by
  intro gs
  induction gs with
  | nil => intro i a u; rfl
  | cons g gs ih =>
    intro i a u
    simp only [fromGraphsAux, d2uSegs, List.flatten_cons, natoms, nund]
    rw [hb, ih]

/-- The batched bond graph is, segment by segment, each structure's bond
graph with the central-atom column shifted by the running atom offset and
the two undirected-bond columns shifted by the running undirected-bond
offset (an empty per-structure bond graph contributes an empty segment,
matching the source's emptiness guard). -/
theorem fromGraphsAux_bond_graph {R AB : Type}
    (bexp : List Vec3 → List Vec3 → List Nat → List Vec3 → Mat3 → List R × List R × List Vec3)
    (aexp : List Vec3 → List Vec3 → List AB) (cs : Bool)
    (hb : ∀ c n u2 im lat, ((bexp c n u2 im lat).1).length = u2.length) :
    ∀ (gs : List CrystalGraph) (i a u : Nat),
      (fromGraphsAux bexp aexp cs i a u gs).batched_bond_graph
        = (bondGraphSegs a u gs).flatten := by
  intro gs
  induction gs with
  | nil => intro i a u; rfl
  | cons g gs ih =>
    intro i a u
    simp only [fromGraphsAux, bondGraphSegs, List.flatten_cons, natoms, nund]
    rw [hb, ih]
    cases hbg : g.bond_graph with
    | nil => simp
    | cons r rs => simp

/-- Partial sums over a prefix are monotone. -/
theorem sum_take_mono (l : List Nat) {j k : Nat} (h : j ≤ k) :
    (l.take j).sum ≤ (l.take k).sum := by
  have h1 : (l.take k).take j = l.take j := by rw [List.take_take, Nat.min_eq_left h]
  calc (l.take j).sum = ((l.take k).take j).sum := by rw [h1]
    _ ≤ ((l.take k).take j).sum + ((l.take k).drop j).sum := Nat.le_add_right _ _
    _ = (l.take k).sum := List.sum_take_add_sum_drop _ _

/-- One more structure in the prefix adds exactly its contribution. -/
theorem take_map_sum_succ (f : CrystalGraph → Nat) :
    ∀ (gs : List CrystalGraph) (k : Nat), k < gs.length →
      ((gs.take (k + 1)).map f).sum
        = ((gs.take k).map f).sum + f (gs.getD k CrystalGraph.empty) := by
  intro gs
  induction gs with
  | nil => intro k hk; cases hk
  | cons g gs ih =>
    intro k hk
    cases k with
    | zero => simp
    | succ k =>
      have hk2 : k < gs.length := by simpa using hk
      simp only [List.take_succ_cons, List.map_cons, List.sum_cons, List.getD_cons_succ]
      rw [ih k hk2]
      omega

/-- Segment `k` of the spec-side atom-graph layout is structure `k`'s atom
graph shifted by `a` plus the total atom count of structures `0 .. k-1`. -/
theorem atomGraphSegs_getD :
    ∀ (gs : List CrystalGraph) (a k : Nat), k < gs.length →
      (atomGraphSegs a gs).getD k [] =
        (gs.getD k CrystalGraph.empty).atom_graph.map
          (fun e => (e.1 + (a + atomOffset gs k), e.2 + (a + atomOffset gs k))) := by
  intro gs
  induction gs with
  | nil => intro a k hk; cases hk
  | cons g gs ih =>
    intro a k hk
    cases k with
    | zero => simp [atomGraphSegs, atomOffset]
    | succ k =>
      have hk2 : k < gs.length := by simpa using hk
      simp only [atomGraphSegs, List.getD_cons_succ, List.getD_cons_zero]
      rw [ih (a + natoms g) k hk2]
      simp only [atomOffset, List.take_succ_cons, List.map_cons, List.sum_cons, List.getD_cons_succ]
      simp [Nat.add_assoc]

/-- Segment `k` of the spec-side `directed2undirected` layout is structure
`k`'s map shifted by `u` plus the total undirected-bond count of structures
`0 .. k-1`. -/
theorem d2uSegs_getD :
    ∀ (gs : List CrystalGraph) (u k : Nat), k < gs.length →
      (d2uSegs u gs).getD k [] =
        (gs.getD k CrystalGraph.empty).directed2undirected.map
          (· + (u + bondOffset gs k)) := by
  intro gs
  induction gs with
  | nil => intro u k hk; cases hk
  | cons g gs ih =>
    intro u k hk
    cases k with
    | zero => simp [d2uSegs, bondOffset]
    | succ k =>
      have hk2 : k < gs.length := by simpa using hk
      simp only [d2uSegs, List.getD_cons_succ, List.getD_cons_zero]
      rw [ih (u + nund g) k hk2]
      simp only [bondOffset, List.take_succ_cons, List.map_cons, List.sum_cons, List.getD_cons_succ]
      simp [Nat.add_assoc]

/-- Segment `k` of the spec-side bond-graph layout carries structure `k`'s
bond graph with its columns shifted by the two running offsets. -/
theorem bondGraphSegs_getD :
    ∀ (gs : List CrystalGraph) (a u k : Nat), k < gs.length →
      (bondGraphSegs a u gs).getD k [] =
        (gs.getD k CrystalGraph.empty).bond_graph.map
          (fun r => (r.1 + (a + atomOffset gs k), r.2.1 + (u + bondOffset gs k),
            r.2.2.2.1 + (u + bondOffset gs k))) := by
  intro gs
  induction gs with
  | nil => intro a u k hk; cases hk
  | cons g gs ih =>
    intro a u k hk
    cases k with
    | zero => simp [bondGraphSegs, atomOffset, bondOffset]
    | succ k =>
      have hk2 : k < gs.length := by simpa using hk
      simp only [bondGraphSegs, List.getD_cons_succ, List.getD_cons_zero]
      rw [ih (a + natoms g) (u + nund g) k hk2]
      simp only [atomOffset, bondOffset, List.take_succ_cons, List.map_cons, List.sum_cons,
        List.getD_cons_succ]
      simp [Nat.add_assoc]

/-- Prefix offsets are monotone in the prefix length. -/
theorem atomOffset_mono (gs : List CrystalGraph) {j k : Nat} (h : j ≤ k) :
    atomOffset gs j ≤ atomOffset gs k := by
  unfold atomOffset
  rw [List.map_take, List.map_take]
  exact sum_take_mono _ h

/-- Prefix bond offsets are monotone in the prefix length. -/
theorem bondOffset_mono (gs : List CrystalGraph) {j k : Nat} (h : j ≤ k) :
    bondOffset gs j ≤ bondOffset gs k := by
  unfold bondOffset
  rw [List.map_take, List.map_take]
  exact sum_take_mono _ h

/-- C3: on any graph list, the batcher (instantiated with the source's
`BondEncoder.forward`) lays out the batched `atom_graph`,
`directed2undirected` and bond-graph tensors structure by structure, with
structure `k`'s atom indices shifted by the total atom count of structures
`0..k-1` and its bond-index columns shifted by the total undirected-bond
count of structures `0..k-1`; under the per-structure locality invariant,
every entry of structure `k`'s rows lies inside structure `k`'s own index
interval, and the intervals of distinct structures are disjoint (the end of
an earlier interval never exceeds the start of a later one). -/
theorem batcher_offsets_and_disjointness {R AB : Type}
    (rbf_ag rbf_bg : ℚ → R) (normF : Vec3 → ℚ)
    (aexp : List Vec3 → List Vec3 → List AB) (cs : Bool)
    (gs : List CrystalGraph)
    (hvalid : ∀ g ∈ gs,
      (∀ e ∈ g.atom_graph, e.1 < natoms g ∧ e.2 < natoms g) ∧
      (∀ i ∈ g.directed2undirected, i < nund g) ∧
      (∀ r ∈ g.bond_graph, r.1 < natoms g ∧ r.2.1 < nund g ∧ r.2.2.2.1 < nund g)) :
    ((fromGraphs (bondEncoderForward rbf_ag rbf_bg normF) aexp cs gs).batched_atom_graph
        = (atomGraphSegs 0 gs).flatten ∧
     (fromGraphs (bondEncoderForward rbf_ag rbf_bg normF) aexp cs gs).directed2undirected
        = (d2uSegs 0 gs).flatten ∧
     (fromGraphs (bondEncoderForward rbf_ag rbf_bg normF) aexp cs gs).batched_bond_graph
        = (bondGraphSegs 0 0 gs).flatten) ∧
    (∀ k, k < gs.length →
      (atomGraphSegs 0 gs).getD k [] =
        (gs.getD k CrystalGraph.empty).atom_graph.map
          (fun e => (e.1 + atomOffset gs k, e.2 + atomOffset gs k)) ∧
      (d2uSegs 0 gs).getD k [] =
        (gs.getD k CrystalGraph.empty).directed2undirected.map (· + bondOffset gs k) ∧
      (bondGraphSegs 0 0 gs).getD k [] =
        (gs.getD k CrystalGraph.empty).bond_graph.map
          (fun r => (r.1 + atomOffset gs k, r.2.1 + bondOffset gs k,
            r.2.2.2.1 + bondOffset gs k))) ∧
    (∀ k, k < gs.length →
      (∀ e ∈ (atomGraphSegs 0 gs).getD k [],
        atomOffset gs k ≤ e.1 ∧ e.1 < atomOffset gs k + natoms (gs.getD k CrystalGraph.empty) ∧
        atomOffset gs k ≤ e.2 ∧ e.2 < atomOffset gs k + natoms (gs.getD k CrystalGraph.empty)) ∧
      (∀ i ∈ (d2uSegs 0 gs).getD k [],
        bondOffset gs k ≤ i ∧ i < bondOffset gs k + nund (gs.getD k CrystalGraph.empty)) ∧
      (∀ r ∈ (bondGraphSegs 0 0 gs).getD k [],
        atomOffset gs k ≤ r.1 ∧ r.1 < atomOffset gs k + natoms (gs.getD k CrystalGraph.empty) ∧
        bondOffset gs k ≤ r.2.1 ∧ r.2.1 < bondOffset gs k + nund (gs.getD k CrystalGraph.empty) ∧
        bondOffset gs k ≤ r.2.2 ∧ r.2.2 < bondOffset gs k + nund (gs.getD k CrystalGraph.empty))) ∧
    (∀ j k, j < k → k < gs.length →
      atomOffset gs j + natoms (gs.getD j CrystalGraph.empty) ≤ atomOffset gs k ∧
      bondOffset gs j + nund (gs.getD j CrystalGraph.empty) ≤ bondOffset gs k) := by
  have hbexp : ∀ c n u2 im lat,
      ((bondEncoderForward rbf_ag rbf_bg normF c n u2 im lat).1).length = u2.length := by
    intro c n u2 im lat
    simp [bondEncoderForward, indexSelect]
  refine ⟨⟨fromGraphsAux_atom_graph _ aexp cs gs 0 0 0,
           fromGraphsAux_d2u _ aexp cs hbexp gs 0 0 0,
           fromGraphsAux_bond_graph _ aexp cs hbexp gs 0 0 0⟩, ?_, ?_, ?_⟩
  · intro k hk
    refine ⟨?_, ?_, ?_⟩
    · rw [atomGraphSegs_getD gs 0 k hk]
      simp
    · rw [d2uSegs_getD gs 0 k hk]
      simp
    · rw [bondGraphSegs_getD gs 0 0 k hk]
      simp
  · intro k hk
    have hmem : gs.getD k CrystalGraph.empty ∈ gs := by
      rw [List.getD_eq_getElem gs CrystalGraph.empty hk]
      exact List.getElem_mem hk
    obtain ⟨hv1, hv2, hv3⟩ := hvalid _ hmem
    refine ⟨?_, ?_, ?_⟩
    · rw [atomGraphSegs_getD gs 0 k hk]
      intro e he
      simp only [List.mem_map] at he
      obtain ⟨p, hp, rfl⟩ := he
      obtain ⟨h1, h2⟩ := hv1 p hp
      dsimp only
      omega
    · rw [d2uSegs_getD gs 0 k hk]
      intro i hi
      simp only [List.mem_map] at hi
      obtain ⟨w, hw, rfl⟩ := hi
      have h1 := hv2 w hw
      omega
    · rw [bondGraphSegs_getD gs 0 0 k hk]
      intro r hr
      simp only [List.mem_map] at hr
      obtain ⟨p, hp, rfl⟩ := hr
      obtain ⟨h1, h2, h3⟩ := hv3 p hp
      dsimp only
      omega
  · intro j k hjk hk
    have hj : j < gs.length := lt_trans hjk hk
    have ha1 : atomOffset gs (j + 1) = atomOffset gs j + natoms (gs.getD j CrystalGraph.empty) :=
      take_map_sum_succ natoms gs j hj
    have hb1 : bondOffset gs (j + 1) = bondOffset gs j + nund (gs.getD j CrystalGraph.empty) :=
      take_map_sum_succ nund gs j hj
    constructor
    · rw [← ha1]
      exact atomOffset_mono gs hjk
    · rw [← hb1]
      exact bondOffset_mono gs hjk

/-- A two-structure concrete input for the batcher: structure 0 has two
atoms, one undirected bond (two directed entries) and one angle row;
structure 1 has one atom and one undirected self-image bond. -/
def gA : CrystalGraph :=
  ⟨[1, 2], [⟨0, 0, 0⟩, ⟨1/2, 1/2, 1/2⟩], Mat3.one,
   [(0, 1), (1, 0)], [0], [0, 0], [⟨0, 0, 0⟩, ⟨0, 0, 0⟩],
   [(0, 0, 0, 0, 1)]⟩

/-- Second concrete structure for the batcher witness. -/
def gB : CrystalGraph :=
  ⟨[3], [⟨0, 0, 0⟩], Mat3.one, [(0, 0), (0, 0)], [0], [0, 0],
   [⟨1, 0, 0⟩, ⟨-1, 0, 0⟩], []⟩

/-- Witness for C3 on the concrete two-structure batch. -/
theorem batcher_offsets_and_disjointness_app :
    (∀ g ∈ [gA, gB],
      (∀ e ∈ g.atom_graph, e.1 < natoms g ∧ e.2 < natoms g) ∧
      (∀ i ∈ g.directed2undirected, i < nund g) ∧
      (∀ r ∈ g.bond_graph, r.1 < natoms g ∧ r.2.1 < nund g ∧ r.2.2.2.1 < nund g)) ∧
    ((fromGraphs (bondEncoderForward (fun q => q) (fun q => q) (fun _ => 1))
        (fun _ _ => ([] : List Unit)) true [gA, gB]).batched_atom_graph
      = (atomGraphSegs 0 [gA, gB]).flatten ∧
     (fromGraphs (bondEncoderForward (fun q => q) (fun q => q) (fun _ => 1))
        (fun _ _ => ([] : List Unit)) true [gA, gB]).directed2undirected
      = (d2uSegs 0 [gA, gB]).flatten ∧
     (fromGraphs (bondEncoderForward (fun q => q) (fun q => q) (fun _ => 1))
        (fun _ _ => ([] : List Unit)) true [gA, gB]).batched_bond_graph
      = (bondGraphSegs 0 0 [gA, gB]).flatten) :=
  ⟨by decide,
   ((batcher_offsets_and_disjointness (fun q => q) (fun q => q) (fun _ => 1)
      (fun _ _ => ([] : List Unit)) true [gA, gB] (by decide)).1)⟩

/-- The batcher's owner labels: for each structure, its atom count many
copies of its position index. -/
theorem fromGraphsAux_atom_owners {R AB : Type}
    (bexp : List Vec3 → List Vec3 → List Nat → List Vec3 → Mat3 → List R × List R × List Vec3)
    (aexp : List Vec3 → List Vec3 → List AB) (cs : Bool) :
    ∀ (gs : List CrystalGraph) (i a u : Nat),
      (fromGraphsAux bexp aexp cs i a u gs).atom_owners = ownerSegs i (gs.map natoms) := by
  intro gs
  induction gs with
  | nil => intro i a u; rfl
  | cons g gs ih =>
    intro i a u
    simp only [fromGraphsAux, List.map_cons, ownerSegs, natoms]
    rw [ih]

/-- The batched atom count is the total atom count of the structures. -/
theorem ownerSegs_length : ∀ (ns : List Nat) (i : Nat), (ownerSegs i ns).length = ns.sum := by
  intro ns
  induction ns with
  | nil => intro i; rfl
  | cons n ns ih =>
    intro i
    simp [ownerSegs, ih]

/-- Labels below the starting label do not occur among the owner labels. -/
theorem count_ownerSegs_lt : ∀ (ns : List Nat) (i v : Nat), v < i →
    (ownerSegs i ns).count v = 0 := by
  intro ns
  induction ns with
  | nil => intro i v _; rfl
  | cons n ns ih =>
    intro i v hv
    rw [ownerSegs, List.count_append, ih (i + 1) v (by omega), List.count_replicate]
    simp only [Nat.add_zero, beq_iff_eq]
    rw [if_neg (by omega)]

/-- Owner label `i + j` occurs exactly `ns.getD j 0` times. -/
theorem count_ownerSegs_getD : ∀ (ns : List Nat) (i j : Nat), j < ns.length →
    (ownerSegs i ns).count (i + j) = ns.getD j 0 := by
  intro ns
  induction ns with
  | nil => intro i j hj; cases hj
  | cons n ns ih =>
    intro i j hj
    rw [ownerSegs, List.count_append, List.count_replicate]
    cases j with
    | zero =>
      simp only [Nat.add_zero, List.getD_cons_zero]
      rw [count_ownerSegs_lt ns (i + 1) i (by omega)]
      simp
    | succ j =>
      have hj2 : j < ns.length := by simpa using hj
      simp only [beq_iff_eq]
      rw [if_neg (by omega : ¬(i = i + (j + 1)))]
      have := ih (i + 1) j hj2
      rw [List.getD_cons_succ]
      rw [show i + (j + 1) = (i + 1) + j by omega]
      omega

/-- Helper: the running maximum over a nonempty run of equal labels
followed by a tail. -/
theorem foldr_max_replicate_append : ∀ (n : Nat), 1 ≤ n → ∀ (i : Nat) (l : List Nat),
    (List.replicate n i ++ l).foldr max 0 = max i (l.foldr max 0) := by
  intro n
  induction n with
  | zero => intro h; cases h
  | succ n ih =>
    intro _ i l
    cases n with
    | zero => simp [List.replicate]
    | succ m =>
      rw [List.replicate_succ, List.cons_append, List.foldr_cons, ih (by omega) i l]
      rw [← Nat.max_assoc, Nat.max_self]

/-- With every structure nonempty, the largest owner label is the last
structure's index. -/
theorem foldr_max_ownerSegs : ∀ (ns : List Nat) (i : Nat), ns ≠ [] → (∀ n ∈ ns, 1 ≤ n) →
    (ownerSegs i ns).foldr max 0 = i + ns.length - 1 := by
  intro ns
  induction ns with
  | nil => intro i h; exact absurd rfl h
  | cons n ns ih =>
    intro i _ hpos
    rw [ownerSegs, foldr_max_replicate_append n (hpos n (List.mem_cons_self n ns)) i]
    cases hns : ns with
    | nil => simp [ownerSegs]
    | cons m ms =>
      rw [← hns, ih (i + 1) (by rw [hns]; simp) (fun w hw => hpos w (List.mem_cons_of_mem n hw))]
      have hlen : 1 ≤ ns.length := by rw [hns]; simp
      rw [Nat.max_eq_right (by omega)]
      simp only [List.length_cons]
      omega

/-- With every structure nonempty, `torch.bincount` of the owner labels
recovers exactly the per-structure atom counts. -/
theorem bincount_ownerSegs (ns : List Nat) (hne : ns ≠ []) (hpos : ∀ n ∈ ns, 1 ≤ n) :
    bincount (ownerSegs 0 ns) = ns := by
  have hlen : (ownerSegs 0 ns).length = ns.sum := ownerSegs_length ns 0
  have hsum : 1 ≤ ns.sum := by
    cases ns with
    | nil => exact absurd rfl hne
    | cons n ns =>
      have := hpos n (List.mem_cons_self n ns)
      simp only [List.sum_cons]
      omega
  have hne2 : ownerSegs 0 ns ≠ [] := by
    intro h
    rw [h] at hlen
    simp at hlen
    omega
  rw [bincount, if_neg hne2, foldr_max_ownerSegs ns 0 hne hpos]
  have hlen2 : 1 ≤ ns.length := by
    cases ns with
    | nil => exact absurd rfl hne
    | cons n ns => simp
  rw [show 0 + ns.length - 1 + 1 = ns.length by omega]
  apply List.ext_getElem
  · simp
  · intro i h1 h2
    simp only [List.getElem_map, List.getElem_range]
    have := count_ownerSegs_getD ns 0 i (by simpa using h2)
    rw [Nat.zero_add] at this
    rw [this, List.getD_eq_getElem ns 0 (by simpa using h2)]

/-- For a batch built from nonempty structures, `atoms_per_graph` — the
bincount of the owner labels — is the list of per-structure atom counts. -/
theorem bincount_fromGraphs_owners {R AB : Type}
    (bexp : List Vec3 → List Vec3 → List Nat → List Vec3 → Mat3 → List R × List R × List Vec3)
    (aexp : List Vec3 → List Vec3 → List AB) (cs : Bool)
    (gs : List CrystalGraph) (hgs : gs ≠ []) (hne : ∀ g ∈ gs, 1 ≤ natoms g) :
    bincount ((fromGraphs bexp aexp cs gs).atom_owners) = gs.map natoms := by
  rw [fromGraphs, fromGraphsAux_atom_owners]
  apply bincount_ownerSegs
  · simpa using hgs
  · intro n hn
    obtain ⟨g, hg, rfl⟩ := List.mem_map.mp hn
    exact hne g hg

/-- C5: for an intensive model the energy returned per structure is the
extensive (per-structure total) energy of the otherwise unchanged pipeline
divided by that structure's atom count, and because the division is the very
last step of `_compute` — after pooling, projection and any requested
derivative extraction — every other output (forces, stress, moments,
feature outputs, atom counts) coincides with the extensive run's. -/
theorem intensive_energy_div_last {R AB F BF AF W CF : Type}
    (bexp : List Vec3 → List Vec3 → List Nat → List Vec3 → Mat3 → List R × List R × List Vec3)
    (aexp : List Vec3 → List Vec3 → List AB)
    (net : NetParts R AB F BF AF W CF) (gs : List CrystalGraph)
    (sw cf cstress raf rcf : Bool) (p q : Prediction F CF)
    (hint : net.is_intensive = true)
    (hgs : gs ≠ []) (hne : ∀ g ∈ gs, 1 ≤ natoms g)
    (hp : chgnetCompute { net with is_intensive := false }
      (fromGraphs bexp aexp cstress gs) sw cf cstress raf rcf = some p)
    (hq : chgnetCompute net (fromGraphs bexp aexp cstress gs) sw cf cstress raf rcf = some q) :
    p.atoms_per_graph = gs.map natoms ∧
    q.e = List.zipWith (fun x n => x / (n : ℚ)) p.e p.atoms_per_graph ∧
    q.atoms_per_graph = p.atoms_per_graph ∧ q.f = p.f ∧ q.s = p.s ∧ q.m = p.m ∧
    q.atom_fea = p.atom_fea ∧ q.crystal_fea = p.crystal_fea := by
  have hTable : ({ net with is_intensive := false } : NetParts R AB F BF AF W CF).atomEmbTable
      = net.atomEmbTable := rfl
  rw [chgnetCompute, hTable] at hp
  rw [chgnetCompute] at hq
  cases hx : computeAtomFeas net.atomEmbTable (fromGraphs bexp aexp cstress gs).atomic_numbers with
  | none =>
    rw [hx] at hp
    cases hp
  | some feas0 =>
    rw [hx] at hp hq
    simp only [Option.map_some', Option.some.injEq] at hp hq
    subst hp
    subst hq
    refine ⟨?_, ?_, rfl, rfl, rfl, rfl, rfl, rfl⟩
    · exact bincount_fromGraphs_owners bexp aexp cstress gs hgs hne
    · simp only [chgnetComputeFeas]
      rw [hint]
      rfl

/-- Concrete bond-basis module for witnesses: `BondEncoder.forward` with
trivial radial bases and a constant stand-in for the vector norm. -/
def bexpU : List Vec3 → List Vec3 → List Nat → List Vec3 → Mat3 →
    List Unit × List Unit × List Vec3 :=
  bondEncoderForward (fun _ => ()) (fun _ => ()) (fun _ => 1)

/-- Concrete angle-basis module for witnesses. -/
def aexpU : List Vec3 → List Vec3 → List Unit := fun _ _ => []

/-- The extensive-run prediction on the concrete one-structure batch. -/
def pExtC5 : Prediction Unit Unit :=
  chgnetComputeFeas { unitNet 2 true with is_intensive := false }
    (fromGraphs bexpU aexpU false [gA]) false false false false false [(), ()]

/-- The intensive-run prediction on the concrete one-structure batch. -/
def pIntC5 : Prediction Unit Unit :=
  chgnetComputeFeas (unitNet 2 true)
    (fromGraphs bexpU aexpU false [gA]) false false false false false [(), ()]

/-- Witness for C5 on a concrete two-atom structure. -/
theorem intensive_energy_div_last_app :
    ((unitNet 2 true).is_intensive = true ∧
     ([gA] : List CrystalGraph) ≠ [] ∧ (∀ g ∈ [gA], 1 ≤ natoms g) ∧
     chgnetCompute { unitNet 2 true with is_intensive := false }
       (fromGraphs bexpU aexpU false [gA]) false false false false false = some pExtC5 ∧
     chgnetCompute (unitNet 2 true)
       (fromGraphs bexpU aexpU false [gA]) false false false false false = some pIntC5) ∧
    (pExtC5.atoms_per_graph = [gA].map natoms ∧
     pIntC5.e = List.zipWith (fun x n => x / (n : ℚ)) pExtC5.e pExtC5.atoms_per_graph ∧
     pIntC5.atoms_per_graph = pExtC5.atoms_per_graph ∧ pIntC5.f = pExtC5.f ∧
     pIntC5.s = pExtC5.s ∧ pIntC5.m = pExtC5.m ∧
     pIntC5.atom_fea = pExtC5.atom_fea ∧ pIntC5.crystal_fea = pExtC5.crystal_fea) :=
  ⟨⟨rfl, by decide, by decide, rfl, rfl⟩,
   intensive_energy_div_last bexpU aexpU (unitNet 2 true) [gA] false false false false false
     pExtC5 pIntC5 rfl (by decide) (by decide) rfl rfl⟩

/-- A successful atom-embedding lookup returns one feature row per atom. -/
theorem computeAtomFeas_length {F : Type} (table : List F) :
    ∀ (zs : List Int) (fs : List F), computeAtomFeas table zs = some fs →
      fs.length = zs.length := by
  intro zs
  induction zs with
  | nil =>
    intro fs h
    rw [computeAtomFeas] at h
    cases h
    rfl
  | cons z zs ih =>
    intro fs h
    rw [computeAtomFeas] at h
    rcases hl : embLookup table (z - 1) with _ | f <;> rw [hl] at h
    · cases h
    · rcases hr : computeAtomFeas table zs with _ | fs2 <;> rw [hr] at h
      · cases h
      · cases h
        simp [ih fs2 hr]

/-- The batched species list has one entry per atom of the batch. -/
theorem fromGraphsAux_atomic_len {R AB : Type}
    (bexp : List Vec3 → List Vec3 → List Nat → List Vec3 → Mat3 → List R × List R × List Vec3)
    (aexp : List Vec3 → List Vec3 → List AB) (cs : Bool) :
    ∀ (gs : List CrystalGraph) (i a u : Nat),
      (fromGraphsAux bexp aexp cs i a u gs).atomic_numbers.length = (gs.map natoms).sum := by
  intro gs
  induction gs with
  | nil => intro i a u; rfl
  | cons g gs ih =>
    intro i a u
    simp only [fromGraphsAux, List.map_cons, List.sum_cons, List.length_append, natoms]
    rw [ih]

/-- When the sizes account for (at least) the whole tensor, `torch.split`
returns chunks of exactly the requested sizes. -/
theorem torchSplit_map_length {α : Type} :
    ∀ (ns : List Nat) (x : List α), ns.sum ≤ x.length →
      (torchSplit x ns).map List.length = ns := by
  intro ns
  induction ns with
  | nil => intro x _; rfl
  | cons n ns ih =>
    intro x h
    simp only [List.sum_cons] at h
    simp only [torchSplit, List.map_cons]
    rw [ih (x.drop n) (by simp; omega), List.length_take]
    congr 1
    omega

/-- Every element of a `torch.split` chunk is an element of the input. -/
theorem torchSplit_mem {α : Type} :
    ∀ (ns : List Nat) (x : List α) (c : List α), c ∈ torchSplit x ns → ∀ e ∈ c, e ∈ x := by
  intro ns
  induction ns with
  | nil => intro x c hc; cases hc
  | cons n ns ih =>
    intro x c hc e he
    rcases List.mem_cons.mp hc with rfl | hc2
    · exact List.mem_of_mem_take he
    · exact List.mem_of_mem_drop (ih (x.drop n) c hc2 e he)

/-- The message-passing loop never changes the number of atom rows when
each atom convolution layer preserves it. -/
theorem foldl_convStep_atom_len {R AB F BF AF W CF : Type}
    (net : NetParts R AB F BF AF W CF) (g : BatchedGraph R AB)
    (apg : List Nat) (bwag bwbg : List W) (sw raf : Bool)
    (hA : ∀ i af bf w ag du, (net.atomLayer i af bf w ag du).length = af.length) :
    ∀ (l : List Nat) (st : LoopState F BF AF),
      ((l.foldl (convStep net g apg bwag bwbg sw raf) st).atom_feas).length
        = st.atom_feas.length := by
  intro l
  induction l with
  | nil => intro st; rfl
  | cons i l ih =>
    intro st
    rw [List.foldl_cons, ih]
    show (net.atomLayer i st.atom_feas st.bond_feas bwag
      g.batched_atom_graph g.directed2undirected).length = st.atom_feas.length
    exact hA i st.atom_feas st.bond_feas bwag g.batched_atom_graph g.directed2undirected

/-- With at least two convolution layers and a magnetic-moment request, the
loop's last interior stage (index `n_conv - 2`) captures the moments: the
absolute site-wise projection of the current atom features, split per
structure by `atoms_per_graph`. -/
theorem loopOutState_mOut {R AB F BF AF W CF : Type} (net : NetParts R AB F BF AF W CF)
    (g : BatchedGraph R AB) (raf : Bool) (feas0 : List F) (hn : 2 ≤ net.n_conv) :
    (loopOutState net g true raf feas0).mOut
      = some (torchSplit
          (((loopOutState net g true raf feas0).atom_feas).map fun fea => |net.site_wise_proj fea|)
          (bincount g.atom_owners)) := by
  unfold loopOutState
  rw [show List.range (net.n_conv - 1) = List.range (net.n_conv - 2) ++ [net.n_conv - 2] by
    rw [show net.n_conv - 1 = (net.n_conv - 2) + 1 by omega, List.range_succ]]
  rw [List.foldl_append]
  simp only [List.foldl_cons, List.foldl_nil]
  rw [convStep]
  simp only
  rw [if_pos (by simp)]

/-- C9 counterexample: with a single-convolution-layer model (`n_conv = 1`)
a magnetic-moment request yields no moment output at all: the capture is
guarded by `idx == n_conv - 2` inside the loop over the `n_conv - 1`
interior stages, and with one layer there is no interior stage. -/
theorem magmom_missing_single_layer :
    (chgnetCompute (unitNet 1 true) gUnit true false false false false).map
      (fun p => p.m) = some none := by decide

/-- C9 amended: with at least two convolution layers, whenever the task
requests magnetic moments the prediction contains them: one scalar per atom
(the per-structure chunk sizes are exactly the per-structure atom counts),
obtained as the absolute value of the site-wise linear projection of atom
features split per structure, so every returned entry is non-negative. -/
theorem magmom_present_nonneg {R AB F BF AF W CF : Type}
    (bexp : List Vec3 → List Vec3 → List Nat → List Vec3 → Mat3 → List R × List R × List Vec3)
    (aexp : List Vec3 → List Vec3 → List AB)
    (net : NetParts R AB F BF AF W CF) (gs : List CrystalGraph)
    (cf cstress raf rcf : Bool) (p : Prediction F CF)
    (hn : 2 ≤ net.n_conv)
    (hA : ∀ i af bf w ag du, (net.atomLayer i af bf w ag du).length = af.length)
    (hgs : gs ≠ []) (hne : ∀ g ∈ gs, 1 ≤ natoms g)
    (hp : chgnetCompute net (fromGraphs bexp aexp cstress gs) true cf cstress raf rcf = some p) :
    p.m.isSome ∧ ∀ M, p.m = some M →
      (M.map List.length = gs.map natoms ∧ ∀ c ∈ M, ∀ x ∈ c, 0 ≤ x) := by
  rw [chgnetCompute] at hp
  cases hx : computeAtomFeas net.atomEmbTable (fromGraphs bexp aexp cstress gs).atomic_numbers with
  | none =>
    rw [hx] at hp
    cases hp
  | some feas0 =>
    rw [hx] at hp
    simp only [Option.map_some', Option.some.injEq] at hp
    subst hp
    have hm : (chgnetComputeFeas net (fromGraphs bexp aexp cstress gs)
        true cf cstress raf rcf feas0).m
        = (loopOutState net (fromGraphs bexp aexp cstress gs) true raf feas0).mOut := rfl
    have hcap := loopOutState_mOut net (fromGraphs bexp aexp cstress gs) raf feas0 hn
    have hlen0 : feas0.length
        = (fromGraphs bexp aexp cstress gs).atomic_numbers.length :=
      computeAtomFeas_length net.atomEmbTable _ feas0 hx
    have hlen1 : (fromGraphs bexp aexp cstress gs).atomic_numbers.length
        = (gs.map natoms).sum := fromGraphsAux_atomic_len bexp aexp cstress gs 0 0 0
    have hloop : ((loopOutState net (fromGraphs bexp aexp cstress gs) true raf
        feas0).atom_feas).length = feas0.length := by
      unfold loopOutState
      exact foldl_convStep_atom_len net _ _ _ _ true raf hA _ _
    have happ : bincount (fromGraphs bexp aexp cstress gs).atom_owners = gs.map natoms :=
      bincount_fromGraphs_owners bexp aexp cstress gs hgs hne
    rw [hm, hcap]
    refine ⟨rfl, ?_⟩
    intro M hM
    rw [Option.some.injEq] at hM
    subst hM
    constructor
    · rw [happ]
      apply torchSplit_map_length
      rw [List.length_map, hloop, hlen0, hlen1]
    · intro c hc x hxmem
      have := torchSplit_mem _ _ c hc x hxmem
      obtain ⟨fea, _, rfl⟩ := List.mem_map.mp this
      exact abs_nonneg _

/-- The moment-bearing prediction on the concrete one-structure batch. -/
def pC9 : Prediction Unit Unit :=
  chgnetComputeFeas (unitNet 2 true)
    (fromGraphs bexpU aexpU false [gA]) true false false false false [(), ()]

/-- Witness for C9's amended statement on a concrete two-atom structure. -/
theorem magmom_present_nonneg_app :
    (2 ≤ (unitNet 2 true).n_conv ∧
     (∀ i af bf w ag du, ((unitNet 2 true).atomLayer i af bf w ag du).length = af.length) ∧
     ([gA] : List CrystalGraph) ≠ [] ∧ (∀ g ∈ [gA], 1 ≤ natoms g) ∧
     chgnetCompute (unitNet 2 true) (fromGraphs bexpU aexpU false [gA])
       true false false false false = some pC9) ∧
    (pC9.m.isSome ∧ ∀ M, pC9.m = some M →
      (M.map List.length = [gA].map natoms ∧ ∀ c ∈ M, ∀ x ∈ c, 0 ≤ x)) :=
  ⟨⟨by decide, fun _ _ _ _ _ _ => rfl, by decide, by decide, rfl⟩,
   magmom_present_nonneg bexpU aexpU (unitNet 2 true) [gA] false false false false pC9
     (by decide) (fun _ _ _ _ _ _ => rfl) (by decide) (by decide) rfl⟩

/-- One differentiable Cartesian-position leaf is created per structure. -/
theorem fromGraphsAux_positions_length {R AB : Type}
    (bexp : List Vec3 → List Vec3 → List Nat → List Vec3 → Mat3 → List R × List R × List Vec3)
    (aexp : List Vec3 → List Vec3 → List AB) (cs : Bool) :
    ∀ (gs : List CrystalGraph) (i a u : Nat),
      (fromGraphsAux bexp aexp cs i a u gs).atom_positions.length = gs.length := by
  intro gs
  induction gs with
  | nil => intro i a u; rfl
  | cons g gs ih =>
    intro i a u
    simp only [fromGraphsAux, List.length_cons]
    rw [ih]

/-- One strain slot is created per structure. -/
theorem fromGraphsAux_strains_length {R AB : Type}
    (bexp : List Vec3 → List Vec3 → List Nat → List Vec3 → Mat3 → List R × List R × List Vec3)
    (aexp : List Vec3 → List Vec3 → List AB) (cs : Bool) :
    ∀ (gs : List CrystalGraph) (i a u : Nat),
      (fromGraphsAux bexp aexp cs i a u gs).strains.length = gs.length := by
  intro gs
  induction gs with
  | nil => intro i a u; rfl
  | cons g gs ih =>
    intro i a u
    simp only [fromGraphsAux, List.length_cons]
    rw [ih]

/-- The batched volumes are the determinants of the per-structure
(strained) lattices. -/
theorem fromGraphsAux_volumes {R AB : Type}
    (bexp : List Vec3 → List Vec3 → List Nat → List Vec3 → Mat3 → List R × List R × List Vec3)
    (aexp : List Vec3 → List Vec3 → List AB) (cs : Bool) :
    ∀ (gs : List CrystalGraph) (i a u : Nat),
      (fromGraphsAux bexp aexp cs i a u gs).volumes
        = gs.map fun g => Mat3.det (latticeOf cs g) := by
  intro gs
  induction gs with
  | nil => intro i a u; rfl
  | cons g gs ih =>
    intro i a u
    simp only [fromGraphsAux, List.map_cons]
    rw [ih]

/-- The engine's gradient of a batch sum with respect to one position leaf
is the leafwise sum of the per-summand gradients. -/
theorem sumDS_gradPos (es : List DiffScalar) (k : Nat) :
    (sumDS es).gradPos k = es.foldr (fun d acc => zipPad Vec3.add (d.gradPos k) acc) [] := by
  induction es with
  | nil => rfl
  | cons e es ih =>
    simp only [sumDS, List.foldr_cons] at ih ⊢
    rw [← ih]
    rfl

/-- The engine's gradient of a batch sum with respect to one strain leaf is
the sum of the per-summand strain gradients. -/
theorem sumDS_gradStrain (es : List DiffScalar) (k : Nat) :
    (sumDS es).gradStrain k
      = es.foldr (fun d acc => Mat3.add (d.gradStrain k) acc) Mat3.zero := by
  induction es with
  | nil => rfl
  | cons e es ih =>
    simp only [sumDS, List.foldr_cons] at ih ⊢
    rw [← ih]
    rfl

/-- Scalar multiplications of a matrix compose by multiplying the scalars. -/
theorem Mat3.smul_smul (a b : ℚ) (m : Mat3) :
    Mat3.smul a (Mat3.smul b m) = Mat3.smul (a * b) m := by
  cases m with
  | mk r0 r1 r2 =>
    cases r0; cases r1; cases r2
    simp [Mat3.smul, Vec3.smul, mul_assoc]

/-- C1: whenever the task requests forces, the returned force tensor for
each structure `k` is the negated autodiff gradient, with respect to
structure `k`'s differentiable Cartesian-position leaf built by the Graph
Batcher, of the batch-summed energy (the per-structure readout energies
before the intensive normalization, summed by `energy.sum()`); and that
batch-total gradient is the leafwise sum of the per-structure-energy
gradients. -/
theorem force_eq_neg_grad_total_energy {R AB F BF AF W CF : Type}
    (bexp : List Vec3 → List Vec3 → List Nat → List Vec3 → Mat3 → List R × List R × List Vec3)
    (aexp : List Vec3 → List Vec3 → List AB)
    (net : NetParts R AB F BF AF W CF) (gs : List CrystalGraph)
    (task : String) (raf rcf : Bool) (feas0 : List F) (p : Prediction F CF)
    (hf : taskForce task = true)
    (hx : computeAtomFeas net.atomEmbTable
      (fromGraphs bexp aexp (taskStress task) gs).atomic_numbers = some feas0)
    (hp : chgnetCompute net (fromGraphs bexp aexp (taskStress task) gs)
      (taskMag task) (taskForce task) (taskStress task) raf rcf = some p) :
    p.f = some ((List.range gs.length).map fun k =>
      ((sumDS (energiesPre net (fromGraphs bexp aexp (taskStress task) gs)
        (taskMag task) raf feas0)).gradPos k).map Vec3.neg) ∧
    ∀ k, (sumDS (energiesPre net (fromGraphs bexp aexp (taskStress task) gs)
        (taskMag task) raf feas0)).gradPos k
      = (energiesPre net (fromGraphs bexp aexp (taskStress task) gs)
          (taskMag task) raf feas0).foldr
          (fun d acc => zipPad Vec3.add (d.gradPos k) acc) [] := by
  rw [chgnetCompute, hx] at hp
  simp only [Option.map_some', Option.some.injEq] at hp
  subst hp
  have hplen : (fromGraphs bexp aexp (taskStress task) gs).atom_positions.length = gs.length := by
    rw [fromGraphs]
    exact fromGraphsAux_positions_length bexp aexp (taskStress task) gs 0 0 0
  constructor
  · show (if taskForce task = true then
        some ((List.range (fromGraphs bexp aexp (taskStress task) gs).atom_positions.length).map
          fun k => ((sumDS (energiesPre net (fromGraphs bexp aexp (taskStress task) gs)
            (taskMag task) raf feas0)).gradPos k).map Vec3.neg)
      else none) = _
    rw [hf, if_pos rfl, hplen]
  · intro k
    exact sumDS_gradPos _ k

/-- C2: whenever the task requests stress, the returned stress of each
structure `k` is the autodiff gradient of the batch-summed energy with
respect to structure `k`'s strain leaf, divided by that structure's volume
(the determinant of its strained lattice) and multiplied by the constant
`160.21766208`. -/
theorem stress_eq_scaled_strain_grad {R AB F BF AF W CF : Type}
    (bexp : List Vec3 → List Vec3 → List Nat → List Vec3 → Mat3 → List R × List R × List Vec3)
    (aexp : List Vec3 → List Vec3 → List AB)
    (net : NetParts R AB F BF AF W CF) (gs : List CrystalGraph)
    (task : String) (raf rcf : Bool) (feas0 : List F) (p : Prediction F CF)
    (hs : taskStress task = true)
    (hx : computeAtomFeas net.atomEmbTable
      (fromGraphs bexp aexp (taskStress task) gs).atomic_numbers = some feas0)
    (hp : chgnetCompute net (fromGraphs bexp aexp (taskStress task) gs)
      (taskMag task) (taskForce task) (taskStress task) raf rcf = some p) :
    (fromGraphs bexp aexp (taskStress task) gs).volumes
        = gs.map (fun g => Mat3.det (latticeOf (taskStress task) g)) ∧
    p.s.isSome ∧
    ∀ S, p.s = some S → S.length = gs.length ∧
      ∀ k, k < gs.length →
        S.getD k Mat3.zero
          = Mat3.smul stressUnitConv
              (Mat3.smul (1 / ((fromGraphs bexp aexp (taskStress task) gs).volumes.getD k 0))
                ((sumDS (energiesPre net (fromGraphs bexp aexp (taskStress task) gs)
                  (taskMag task) raf feas0)).gradStrain k)) := by
  rw [chgnetCompute, hx] at hp
  simp only [Option.map_some', Option.some.injEq] at hp
  subst hp
  have hvol : (fromGraphs bexp aexp (taskStress task) gs).volumes
      = gs.map (fun g => Mat3.det (latticeOf (taskStress task) g)) := by
    rw [fromGraphs]
    exact fromGraphsAux_volumes bexp aexp (taskStress task) gs 0 0 0
  have hslen : (fromGraphs bexp aexp (taskStress task) gs).strains.length = gs.length := by
    rw [fromGraphs]
    exact fromGraphsAux_strains_length bexp aexp (taskStress task) gs 0 0 0
  have hvlen : (fromGraphs bexp aexp (taskStress task) gs).volumes.length = gs.length := by
    rw [hvol, List.length_map]
  have hps : (chgnetComputeFeas net (fromGraphs bexp aexp (taskStress task) gs)
      (taskMag task) (taskForce task) (taskStress task) raf rcf feas0).s
      = some (List.zipWith (fun m sc => Mat3.smul sc m)
          ((List.range (fromGraphs bexp aexp (taskStress task) gs).strains.length).map
            fun k => (sumDS (energiesPre net (fromGraphs bexp aexp (taskStress task) gs)
              (taskMag task) raf feas0)).gradStrain k)
          ((fromGraphs bexp aexp (taskStress task) gs).volumes.map
            fun v => 1 / v * stressUnitConv)) := by
    show (if taskStress task = true then _ else none) = _
    rw [hs, if_pos rfl]
  refine ⟨hvol, ?_, ?_⟩
  · rw [hps]
    rfl
  · intro S hS
    rw [hps, Option.some.injEq] at hS
    subst hS
    have hSlen : (List.zipWith (fun m sc => Mat3.smul sc m)
        ((List.range (fromGraphs bexp aexp (taskStress task) gs).strains.length).map
          fun k => (sumDS (energiesPre net (fromGraphs bexp aexp (taskStress task) gs)
            (taskMag task) raf feas0)).gradStrain k)
        ((fromGraphs bexp aexp (taskStress task) gs).volumes.map
          fun v => 1 / v * stressUnitConv)).length = gs.length := by
      rw [List.length_zipWith, List.length_map, List.length_range, List.length_map,
        hslen, hvlen, Nat.min_self]
    refine ⟨hSlen, ?_⟩
    intro k hk
    rw [List.getD_eq_getElem _ Mat3.zero (by rw [hSlen]; exact hk)]
    rw [List.getElem_zipWith]
    rw [List.getElem_map, List.getElem_map, List.getElem_range]
    rw [Mat3.smul_smul]
    rw [List.getD_eq_getElem _ 0 (by rw [hvlen]; exact hk)]
    rw [mul_comm stressUnitConv]

/-- The force-run prediction on the concrete one-structure batch. -/
def pC1 : Prediction Unit Unit :=
  chgnetComputeFeas (unitNet 2 true) (fromGraphs bexpU aexpU (taskStress "ef") [gA])
    (taskMag "ef") (taskForce "ef") (taskStress "ef") false false [(), ()]

/-- Witness for C1 at the concrete task `ef` on a two-atom structure. -/
theorem force_eq_neg_grad_total_energy_app :
    (taskForce "ef" = true ∧
     computeAtomFeas (unitNet 2 true).atomEmbTable
       (fromGraphs bexpU aexpU (taskStress "ef") [gA]).atomic_numbers = some [(), ()] ∧
     chgnetCompute (unitNet 2 true) (fromGraphs bexpU aexpU (taskStress "ef") [gA])
       (taskMag "ef") (taskForce "ef") (taskStress "ef") false false = some pC1) ∧
    (pC1.f = some ((List.range ([gA] : List CrystalGraph).length).map fun k =>
      ((sumDS (energiesPre (unitNet 2 true) (fromGraphs bexpU aexpU (taskStress "ef") [gA])
        (taskMag "ef") false [(), ()])).gradPos k).map Vec3.neg) ∧
     ∀ k, (sumDS (energiesPre (unitNet 2 true) (fromGraphs bexpU aexpU (taskStress "ef") [gA])
        (taskMag "ef") false [(), ()])).gradPos k
      = (energiesPre (unitNet 2 true) (fromGraphs bexpU aexpU (taskStress "ef") [gA])
          (taskMag "ef") false [(), ()]).foldr
          (fun d acc => zipPad Vec3.add (d.gradPos k) acc) []) :=
  ⟨⟨by decide, rfl, rfl⟩,
   force_eq_neg_grad_total_energy bexpU aexpU (unitNet 2 true) [gA] "ef"
     false false [(), ()] pC1 (by decide) rfl rfl⟩

/-- The stress-run prediction on the concrete one-structure batch. -/
def pC2 : Prediction Unit Unit :=
  chgnetComputeFeas (unitNet 2 true) (fromGraphs bexpU aexpU (taskStress "efs") [gA])
    (taskMag "efs") (taskForce "efs") (taskStress "efs") false false [(), ()]

/-- Witness for C2 at the concrete task `efs` on a two-atom structure. -/
theorem stress_eq_scaled_strain_grad_app :
    (taskStress "efs" = true ∧
     computeAtomFeas (unitNet 2 true).atomEmbTable
       (fromGraphs bexpU aexpU (taskStress "efs") [gA]).atomic_numbers = some [(), ()] ∧
     chgnetCompute (unitNet 2 true) (fromGraphs bexpU aexpU (taskStress "efs") [gA])
       (taskMag "efs") (taskForce "efs") (taskStress "efs") false false = some pC2) ∧
    ((fromGraphs bexpU aexpU (taskStress "efs") [gA]).volumes
        = ([gA] : List CrystalGraph).map (fun g => Mat3.det (latticeOf (taskStress "efs") g)) ∧
     pC2.s.isSome ∧
     ∀ S, pC2.s = some S → S.length = ([gA] : List CrystalGraph).length ∧
      ∀ k, k < ([gA] : List CrystalGraph).length →
        S.getD k Mat3.zero
          = Mat3.smul stressUnitConv
              (Mat3.smul (1 / ((fromGraphs bexpU aexpU (taskStress "efs") [gA]).volumes.getD k 0))
                ((sumDS (energiesPre (unitNet 2 true)
                  (fromGraphs bexpU aexpU (taskStress "efs") [gA])
                  (taskMag "efs") false [(), ()])).gradStrain k))) :=
  ⟨⟨by decide, rfl, rfl⟩,
   stress_eq_scaled_strain_grad bexpU aexpU (unitNet 2 true) [gA] "efs"
     false false [(), ()] pC2 (by decide) rfl rfl⟩
